import Mathlib

/-!
Shallow embedding of the content-harvester ingestion pipeline
(`src/utils` file/url validators and the `useContentManager` /
`useFirebaseOperations` hooks) together with proofs of the spec claims.

Strings are modelled on top of the character list underlying Lean strings;
the JS `toLowerCase` calls of the source are modelled by the ASCII case
mapping (the strings the pipeline compares case-insensitively are file
extensions, protocols and hostnames, which are ASCII).
-/

namespace ContentHarvester

/-- Character-list level lower-casing, modelling the JS `toLowerCase` call
on the ASCII strings handled by the pipeline. -/
def lowerList (l : List Char) : List Char := l.map Char.toLower

/-- String-level lower-casing used by the embedding. -/
def lowerStr (s : String) : String := String.mk (lowerList s.data)

/-! ## File validation (`src/utils`: `getFileExtension`, `validateFile`, `validateFiles`) -/

/-- Suffix of a character list starting at the last occurrence of a dot,
or `none` when no dot occurs.  This models the
`filename.lastIndexOf(dot)` / `filename.slice(lastDotIndex)` pair of the
source. -/
def extAux : List Char → Option (List Char)
  | [] => none
  | c :: cs =>
    match extAux cs with
    | some e => some e
    | none => if c = '.' then some (c :: cs) else none

/-- Embeds `getFileExtension`: empty when there is no dot or the dot is the
final character; otherwise the lower-cased slice from the last dot
(leading dot included). -/
def getFileExtension (filename : String) : String :=
  match extAux filename.data with
  | none => ""
  | some e => if e.length = 1 then "" else String.mk (lowerList e)

/-- Embeds the `FileTypeConfig` consumed by the validators.  An absent
`maxTotalSize` (JS `undefined`) is `none`. -/
structure FileTypeConfig where
  allowedExtensions : List String
  blockedExtensions : List String
  maxFileSize : Nat
  maxTotalSize : Option Nat
  deriving Repr, DecidableEq

/-- A dropped/selected file as the validators see it: its name and byte
size.  The `file instanceof File` guard of the source cannot fire in the
typed embedding, so the corresponding error branch is omitted. -/
structure FileDesc where
  name : String
  size : Nat
  deriving Repr, DecidableEq

/-- Kinds of validation failure produced by `validateFile` /
`validateFiles`; the source formats each of these into a message string. -/
inductive FileError where
  | noExtension
  | blockedExtension
  | notInAllowedList
  | exceedsMaxSize
  | emptyFile
  | totalSizeExceeded
  deriving Repr, DecidableEq

/-- Embeds `FileValidationResult`. -/
structure FileValidationResult where
  file : FileDesc
  isValid : Bool
  error : Option FileError
  extension : String
  deriving Repr, DecidableEq

/-- Embeds `validateFile`: extension presence, blocked list, allowed list
(only when non-empty), max size, then non-emptiness, in source order. -/
def validateFile (file : FileDesc) (config : FileTypeConfig) : FileValidationResult :=
  let extension := getFileExtension file.name
  if extension = "" then
    { file := file, isValid := false, error := some .noExtension, extension := "" }
  else if config.blockedExtensions.contains extension then
    { file := file, isValid := false, error := some .blockedExtension, extension := extension }
  else if 0 < config.allowedExtensions.length ∧ ¬ config.allowedExtensions.contains extension then
    { file := file, isValid := false, error := some .notInAllowedList, extension := extension }
  else if config.maxFileSize < file.size then
    { file := file, isValid := false, error := some .exceedsMaxSize, extension := extension }
  else if file.size = 0 then
    { file := file, isValid := false, error := some .emptyFile, extension := extension }
  else
    { file := file, isValid := true, error := none, extension := extension }

/-- Embeds `validateFiles`: per-file validation, then the batch total-size
override when `maxTotalSize` is set and exceeded. -/
def validateFiles (files : List FileDesc) (config : FileTypeConfig) : List FileValidationResult :=
  let results := files.map (fun f => validateFile f config)
  match config.maxTotalSize with
  | some maxTotal =>
    let totalSize := files.foldl (fun sum f => sum + f.size) 0
    if maxTotal < totalSize then
      results.map (fun r => { r with isValid := false, error := some .totalSizeExceeded })
    else results
  | none => results

/-! ## URL model (`src/utils`: `normalizeUrl`, `validateUrl`, `extractUrls`)

The `new URL` platform builtin is not code of this repository; the parsed
record and the component setters the source uses are modelled from the
WHATWG URL Standard, and URL parsing itself enters the embedding as an
explicit oracle `parse : String → Option URLRec`. -/

/-- Parsed-URL record as produced by the WHATWG URL constructor:
`protocol` carries the trailing colon (so `"https:"`), `hostname` is the
host without the port, `port` is `none` when absent or when equal to the
default port of the scheme (the WHATWG parser strips default ports at
parse time), `path` is the list of path segments (for the special schemes
handled here the parser never yields an empty list; a root path is the
single empty segment), `query` and `fragment` are the components after
`?` and `#` when present. -/
structure URLRec where
  protocol : String
  hostname : String
  port : Option Nat
  path : List String
  query : Option String
  fragment : Option String
  deriving Repr, DecidableEq

/-- WHATWG `pathname` getter: every path segment prefixed by a slash. -/
def pathSerial (path : List String) : String :=
  String.mk (path.flatMap (fun seg => '/' :: seg.data))

/-- WHATWG URL serializer (`url.toString()`) for the non-opaque URLs the
pipeline handles. -/
def serializeURL (u : URLRec) : String :=
  u.protocol ++ "//" ++ u.hostname ++
    (match u.port with | some p => ":" ++ toString p | none => "") ++
    pathSerial u.path ++
    (match u.query with | some q => "?" ++ q | none => "") ++
    (match u.fragment with | some f => "#" ++ f | none => "")

/-- Embeds `normalizeUrl` (url-validators): lower-cases the hostnamesetter-wise,
clears the port when it equals the default of the scheme, and assigns the
empty string to `pathname` when the path serializes to the root slash.
The `pathname` setter is modelled from the WHATWG URL Standard: for the
special schemes handled here, parsing the empty string in path-start
state appends the empty segment again, so the assignment recreates the
root path it meant to remove. -/
def normalizeUrl (u : URLRec) : String :=
  let u1 := { u with hostname := lowerStr u.hostname }
  let u2 :=
    if (u1.protocol = "http:" ∧ u1.port = some 80) ∨
       (u1.protocol = "https:" ∧ u1.port = some 443) then
      { u1 with port := none }
    else u1
  let u3 := if pathSerial u2.path = "/" then { u2 with path := [""] } else u2
  serializeURL u3

/-- Embeds the `UrlConfig` consumed by the url validators.  The optional
domain lists behave identically when absent (JS `undefined`) and when
empty, so both are the empty list here; `maxUrlLength` keeps its
JS-truthiness guard (`none` and `some 0` both disable the check). -/
structure UrlConfig where
  allowedProtocols : List String
  blockedDomains : List String
  allowedDomains : List String
  maxUrlLength : Option Nat
  deriving Repr, DecidableEq

/-- Kinds of rejection produced by `validateUrl`; the source formats each
into a message string. -/
inductive UrlError where
  | required
  | empty
  | tooLong
  | invalidFormat
  | protocolNotAllowed
  | domainBlocked
  | domainNotAllowed
  deriving Repr, DecidableEq

/-- Embeds `UrlValidationResult`. -/
structure UrlValidationResult where
  url : String
  isValid : Bool
  error : Option UrlError
  deriving Repr, DecidableEq

/-- JS `String.prototype.trim` on the character list underlying a string. -/
def jsTrim (s : String) : String :=
  String.mk (((s.data.dropWhile Char.isWhitespace).reverse.dropWhile Char.isWhitespace).reverse)

/-- Suffix test used for the subdomain matching in `validateUrl`. -/
def strEndsWith (s suffix : String) : Bool :=
  suffix.data.isSuffixOf s.data

/-- JS-truthiness guard of the length check in `validateUrl`: the check
runs only when `maxUrlLength` is set and nonzero. -/
def maxLenExceeded (maxUrlLength : Option Nat) (len : Nat) : Bool :=
  match maxUrlLength with
  | some m => decide (¬ m = 0 ∧ m < len)
  | none => false

/-- Embeds `validateUrl`: emptiness, length, parse, protocol, blocked
domains, allowed domains, in source order; on success the normalized URL
is returned. -/
def validateUrl (parse : String → Option URLRec) (url : String) (config : UrlConfig) :
    UrlValidationResult :=
  if url = "" then
    { url := url, isValid := false, error := some .required }
  else
    let trimmedUrl := jsTrim url
    if trimmedUrl = "" then
      { url := trimmedUrl, isValid := false, error := some .empty }
    else if maxLenExceeded config.maxUrlLength trimmedUrl.data.length then
      { url := trimmedUrl, isValid := false, error := some .tooLong }
    else
      match parse trimmedUrl with
      | none => { url := trimmedUrl, isValid := false, error := some .invalidFormat }
      | some parsedUrl =>
        if ¬ config.allowedProtocols.contains parsedUrl.protocol then
          { url := trimmedUrl, isValid := false, error := some .protocolNotAllowed }
        else if 0 < config.blockedDomains.length ∧
            (let hostname := lowerStr parsedUrl.hostname
             config.blockedDomains.any (fun blockedDomain =>
               hostname = lowerStr blockedDomain ∨
               strEndsWith hostname ("." ++ lowerStr blockedDomain))) then
          { url := trimmedUrl, isValid := false, error := some .domainBlocked }
        else if 0 < config.allowedDomains.length ∧
            ¬ (let hostname := lowerStr parsedUrl.hostname
               config.allowedDomains.any (fun allowedDomain =>
                 hostname = lowerStr allowedDomain ∨
                 strEndsWith hostname ("." ++ lowerStr allowedDomain))) then
          { url := trimmedUrl, isValid := false, error := some .domainNotAllowed }
        else
          { url := normalizeUrl parsedUrl, isValid := true, error := none }

/-- Splits a character list at newline characters (JS `split` at the
line-break pattern, whose optional leading carriage return is removed by
`dropTrailingCR` below). -/
def splitOnNl : List Char → List (List Char)
  | [] => [[]]
  | c :: cs =>
    if c = '\n' then [] :: splitOnNl cs
    else
      match splitOnNl cs with
      | h :: t => (c :: h) :: t
      | [] => [[c]]

/-- Removes the carriage return left at the end of a line when the input
used CRLF line breaks. -/
def dropTrailingCR (l : List Char) : List Char :=
  if l.getLast? = some '\r' then l.dropLast else l

/-- Model of the source regex match that extracts the leading URL-looking
run from a line: a case-insensitive `http://` or `https://` prefix
followed by at least one non-whitespace character, maximal munch over
non-whitespace, returned in original letter case. -/
def urlCandidate (line : String) : Option String :=
  let m := line.data.takeWhile (fun c => ¬ c.isWhitespace)
  let lm := lowerList m
  if ("http://".data.isPrefixOf lm ∧ 7 < m.length) ∨
     ("https://".data.isPrefixOf lm ∧ 8 < m.length) then
    some (String.mk m)
  else none

/-- The validated, normalized URL sequence `extractUrls` builds before its
final deduplication step (the `validUrls` array of the source), in line
order. -/
def extractValidUrls (parse : String → Option URLRec) (text : String) (config : UrlConfig) :
    List String :=
  if text = "" then []
  else
    let lines := (splitOnNl text.data).map (fun l => jsTrim (String.mk (dropTrailingCR l)))
    let urlLines := lines.filter (fun line =>
      config.allowedProtocols.any (fun protocol => protocol.data.isPrefixOf (lowerStr line).data))
    urlLines.filterMap (fun urlLine =>
      match urlCandidate urlLine with
      | none => none
      | some url =>
        let validation := validateUrl parse url config
        if validation.isValid then some validation.url else none)

/-- Embeds `DEFAULT_URL_CONFIG` (src/types): http and https allowed, no
domain lists, maximum URL length 2048. -/
def defaultUrlConfig : UrlConfig := ⟨["http:", "https:"], [], [], some 2048⟩

/-- Concrete parse oracle used by witnesses: the WHATWG parse of
`https://example.com` (host lower-case, no port, root path). -/
def exampleParse : String → Option URLRec := fun s =>
  if s = "https://example.com" then
    some ⟨"https:", "example.com", none, [""], none, none⟩
  else none

/-- First-seen-order deduplication with an accumulator of already-seen
entries; models the JS `Set` insertion-order semantics of
`[...new Set(validUrls)]`. -/
def dedupAux (seen : List String) : List String → List String
  | [] => []
  | x :: xs => if x ∈ seen then dedupAux seen xs else x :: dedupAux (x :: seen) xs

/-- Deduplication keeping the first occurrence of every entry. -/
def dedupFirst (l : List String) : List String := dedupAux [] l

/-- Index of the first occurrence of an entry in a list (the length of
the list when the entry is absent); used to state the first-seen-order
property of `extractUrls`. -/
def firstIdx (x : String) : List String → Nat
  | [] => 0
  | y :: ys => if y = x then 0 else firstIdx x ys + 1

/-- Embeds `extractUrls`: line split, protocol filter, per-line match,
validation, then duplicate removal. -/
def extractUrls (parse : String → Option URLRec) (text : String) (config : UrlConfig) :
    List String :=
  dedupFirst (extractValidUrls parse text config)

/-! ## Content data model (`src/types`, as enumerated by `formatStatus`) -/

/-- The two content kinds. -/
inductive ContentType where
  | url
  | file
  deriving Repr, DecidableEq

/-- The five status strings of the hook-level `ContentStatus` type (the
`formatStatus` map of `src/utils` enumerates exactly these; the bundled
component re-export declares a four-value variant without `added`). -/
inductive ContentStatus where
  | pending
  | added
  | processing
  | completed
  | error
  deriving Repr, DecidableEq

/-- Embeds `ContentItem`; timestamps are abstract clock readings. -/
structure ContentItem where
  id : String
  type : ContentType
  name : String
  url : Option String
  size : Option Nat
  mimeType : Option String
  status : ContentStatus
  anonymize : Bool
  storageRef : Option String
  createdAt : Nat
  updatedAt : Nat
  deriving Repr, DecidableEq

/-- Embeds `UpdateContentData`: a patch of optional fields, `none` for a
field the patch leaves out. -/
structure UpdateContentData where
  name : Option String := none
  url : Option String := none
  size : Option Nat := none
  mimeType : Option String := none
  status : Option ContentStatus := none
  anonymize : Option Bool := none
  storageRef : Option String := none
  deriving Repr, DecidableEq

/-- JS object spread `{...item, ...data, updatedAt: now}`: every field
present in the patch replaces the field of the item, and `updatedAt` is
refreshed. -/
def applyPatch (now : Nat) (data : UpdateContentData) (item : ContentItem) : ContentItem :=
  { item with
    name := data.name.getD item.name
    url := match data.url with | some u => some u | none => item.url
    size := match data.size with | some s => some s | none => item.size
    mimeType := match data.mimeType with | some m => some m | none => item.mimeType
    status := data.status.getD item.status
    anonymize := data.anonymize.getD item.anonymize
    storageRef := match data.storageRef with | some r => some r | none => item.storageRef
    updatedAt := now }

/-- Patch that sets only the status field. -/
def statusPatch (s : ContentStatus) : UpdateContentData := { status := some s }

/-! ## Local state operations (`useContentManager`) -/

/-- The `setItems` mapper of `updateItem`: patch the item with the given
id, leave every other item alone. -/
def updateItemLocal (now : Nat) (id : String) (data : UpdateContentData)
    (items : List ContentItem) : List ContentItem :=
  items.map (fun item => if item.id = id then applyPatch now data item else item)

/-- Embeds `processAll`: collect the pending items, transition each to
`processing` via `updateItem`, then — after the fixed delay — transition
the same collected items to `added`.  The remote `updateContent` calls
are modelled as resolving (their failure path is the subject of the
`updateItem` atomicity model below); the pair returned holds the local
list right after the first phase and after the delayed phase.  When no
item is pending the source shows a toast and returns with the list
untouched. -/
def processAll (now1 now2 : Nat) (items : List ContentItem) :
    List ContentItem × List ContentItem :=
  let pendingItems := items.filter (fun item => decide (item.status = ContentStatus.pending))
  if pendingItems.length = 0 then (items, items)
  else
    let afterStart := pendingItems.foldl
      (fun acc item => updateItemLocal now1 item.id (statusPatch .processing) acc) items
    let afterDelay := pendingItems.foldl
      (fun acc item => updateItemLocal now2 item.id (statusPatch .added) acc) afterStart
    (afterStart, afterDelay)

/-- Embeds `getStats`: single pass accumulating the counters; the
`totalFileSize` accumulation mirrors the JS truthiness test
`if (item.size)` of the source, which looks at the size field alone,
not at the item kind. -/
structure ContentStats where
  total : Nat
  byType : ContentType → Nat
  byStatus : ContentStatus → Nat
  totalFileSize : Nat

/-- Embeds the `getStats` aggregation loop. -/
def getStats (items : List ContentItem) : ContentStats :=
  items.foldl
    (fun stats item =>
      { stats with
        byType := fun t => if t = item.type then stats.byType t + 1 else stats.byType t
        byStatus := fun st => if st = item.status then stats.byStatus st + 1 else stats.byStatus st
        totalFileSize :=
          match item.size with
          | some n => if n ≠ 0 then stats.totalFileSize + n else stats.totalFileSize
          | none => stats.totalFileSize })
    { total := items.length, byType := fun _ => 0, byStatus := fun _ => 0, totalFileSize := 0 }

/-- Modelled from the spec (ContentListState.getStats): the totalFileSize
the spec describes, summing `sizeBytes` over File items only. -/
def specTotalFileSize (items : List ContentItem) : Nat :=
  items.foldl
    (fun acc item =>
      match item.type, item.size with
      | ContentType.file, some n => acc + n
      | _, _ => acc) 0

/-! ## Remote store model (`useFirebaseOperations`)

The Firestore/Storage SDK is an external collaborator; its documented
behaviour is modelled as explicit state passing plus success oracles for
the calls that can reject. -/

/-- Events observed at the remote-store boundary, used to state ordering
facts such as blob-deletion-before-record-deletion. -/
inductive RemoteEvent where
  | blobDelete (storageRef : String)
  | recordDelete (id : String)
  deriving Repr, DecidableEq

/-- Remote persistence state: the document collection and the stored
blobs by storage path. -/
structure RemoteStore where
  records : List ContentItem
  blobs : List String
  deriving Repr, DecidableEq

/-- Result of a `deleteContent` call: the store afterwards, whether the
call as a whole resolved, and the boundary events in order. -/
structure DeleteOutcome where
  store : RemoteStore
  ok : Bool
  trace : List RemoteEvent
  deriving Repr, DecidableEq

/-- Embeds `deleteContent` (useFirebase): read the record, best-effort
delete of the associated blob when one is referenced (a failure of
`deleteObject` is caught and only logged), then delete the record.
`blobOk` tells whether blob deletion succeeds for a given path and
`docOk` whether the final record deletion resolves. -/
def deleteContent (blobOk : String → Bool) (docOk : Bool) (store : RemoteStore)
    (id : String) : DeleteOutcome :=
  let found := store.records.find? (fun r => decide (r.id = id))
  let afterBlob : RemoteStore × List RemoteEvent :=
    match found with
    | some item =>
      match item.storageRef with
      | some storageRef =>
        if blobOk storageRef then
          ({ store with blobs := store.blobs.filter (fun b => decide (¬ b = storageRef)) },
           [.blobDelete storageRef])
        else (store, [.blobDelete storageRef])
      | none => (store, [])
    | none => (store, [])
  if docOk then
    { store := { afterBlob.1 with
        records := afterBlob.1.records.filter (fun r => decide (¬ r.id = id)) },
      ok := true,
      trace := afterBlob.2 ++ [.recordDelete id] }
  else
    { store := afterBlob.1, ok := false, trace := afterBlob.2 ++ [.recordDelete id] }

/-- Result of the manager-level delete: remote store, local list, events. -/
structure LocalDeleteResult where
  store : RemoteStore
  items : List ContentItem
  trace : List RemoteEvent
  deriving Repr, DecidableEq

/-- Embeds `deleteItem` (useContentManager): await `deleteContent`, and
only when it resolved remove the item from local state; a rejection is
caught and surfaced as a toast, leaving the local list as it was. -/
def deleteItem (blobOk : String → Bool) (docOk : Bool) (store : RemoteStore)
    (items : List ContentItem) (id : String) : LocalDeleteResult :=
  let outcome := deleteContent blobOk docOk store id
  if outcome.ok then
    { store := outcome.store,
      items := items.filter (fun item => decide (¬ item.id = id)),
      trace := outcome.trace }
  else
    { store := outcome.store, items := items, trace := outcome.trace }

/-- Embeds `updateContent` (useFirebase): merge the patch into the stored
record and refresh its update timestamp; the call rejects (`none`) when
the Firestore write fails or the read-back finds no record with the id. -/
def updateContent (updateOk : Bool) (serverNow : Nat) (store : RemoteStore) (id : String)
    (data : UpdateContentData) : Option RemoteStore :=
  if updateOk ∧ store.records.any (fun r => decide (r.id = id)) then
    some { store with
      records := store.records.map
        (fun r => if r.id = id then applyPatch serverNow data r else r) }
  else none

/-- Result of the manager-level update: remote store and local list. -/
structure LocalUpdateResult where
  store : RemoteStore
  items : List ContentItem
  deriving Repr, DecidableEq

/-- Embeds `updateItem` (useContentManager): await `updateContent`, and
only when it resolved apply the same patch optimistically to local state
with `updatedAt` set to now; a rejection is caught and surfaced as a
toast, leaving the local list as it was. -/
def updateItem (updateOk : Bool) (serverNow now : Nat) (store : RemoteStore)
    (items : List ContentItem) (id : String) (data : UpdateContentData) : LocalUpdateResult :=
  match updateContent updateOk serverNow store id data with
  | some newStore => { store := newStore, items := updateItemLocal now id data items }
  | none => { store := store, items := items }

/-! ## Ingestion calls (`addUrls`, `addFiles`) -/

/-- Observable outcome of one ingestion call: how many surviving
candidates were attempted, how many of their persistence operations
settled fulfilled and rejected, and how many state refreshes the call
triggered. -/
structure IngestSummary where
  attempted : Nat
  succeeded : Nat
  failedCount : Nat
  refreshes : Nat
  deriving Repr, DecidableEq

/-- Counting helper shared by the two ingestion embeddings: settle all
per-candidate outcomes (the `Promise.allSettled` join), then refresh
exactly once when at least one fulfilled. -/
def settleSummary (outcomes : List Bool) : IngestSummary :=
  let successful := (outcomes.filter (fun b => b)).length
  let failed := (outcomes.filter (fun b => !b)).length
  { attempted := outcomes.length
    succeeded := successful
    failedCount := failed
    refreshes := if 0 < successful then 1 else 0 }

/-- Embeds `addUrls` (useContentManager): extract, re-validate and
partition against existing items, then persist every new URL
independently; `createOk i` tells whether the `createContent` call of the
i-th new URL resolves.  Early returns (no URL extracted, or none new)
trigger no persistence and no refresh. -/
def addUrls (parse : String → Option URLRec) (createOk : Nat → Bool)
    (items : List ContentItem) (text : String) (urlConfig : UrlConfig) : IngestSummary :=
  let urls := extractUrls parse text urlConfig
  if urls.length = 0 then ⟨0, 0, 0, 0⟩
  else
    let newUrls := urls.filterMap (fun url =>
      let validation := validateUrl parse url urlConfig
      if validation.isValid then
        if items.any (fun item =>
            decide (item.type = ContentType.url ∧ item.url = some validation.url)) then
          none
        else some validation.url
      else none)
    if newUrls.length = 0 then ⟨0, 0, 0, 0⟩
    else
      settleSummary (newUrls.enum.map (fun p =>
        (validateUrl parse p.2 urlConfig).isValid && createOk p.1))

/-- Embeds `addFiles` (useContentManager): batch-validate, partition
against existing items by name and size, then upload and persist every
new file independently; `uploadOk i` and `createOk i` tell whether the
two remote calls of the i-th new file resolve (a rejected upload aborts
only that candidate).  Early returns (no valid file, or none new)
trigger no persistence and no refresh. -/
def addFiles (uploadOk createOk : Nat → Bool) (items : List ContentItem)
    (files : List FileDesc) (fileConfig : FileTypeConfig) : IngestSummary :=
  let validationResults := validateFiles files fileConfig
  let validFiles := (validationResults.filter (fun r => r.isValid)).map (fun r => r.file)
  if validFiles.length = 0 then ⟨0, 0, 0, 0⟩
  else
    let newFiles := validFiles.filter (fun file =>
      ¬ items.any (fun item =>
        decide (item.type = ContentType.file ∧ item.name = file.name ∧
          item.size = some file.size)))
    if newFiles.length = 0 then ⟨0, 0, 0, 0⟩
    else
      settleSummary (newFiles.enum.map (fun p => uploadOk p.1 && createOk p.1))

/-! ## Pagination (`queryContent`, `loadMore`) -/

/-- Pagination options of a content query. -/
structure PaginationOptions where
  limit : Option Nat
  startAfter : Option String
  deriving Repr, DecidableEq

/-- Embeds `ContentQueryOptions`; the filter and sort fields are handled
by Firestore constraints and are absorbed into the pre-ordered collection
the query model receives. -/
structure ContentQueryOptions where
  pagination : Option PaginationOptions
  deriving Repr, DecidableEq

/-- Embeds `ContentQueryResult`. -/
structure ContentQueryResult where
  items : List ContentItem
  hasMore : Bool
  lastDocId : Option String
  deriving Repr, DecidableEq

/-- Embeds `queryContent` (useFirebase): the where/orderBy constraints
are delegated to Firestore and modelled as the already-filtered,
already-ordered `collection` list; the pagination logic is translated
from the source.  A `limit` is applied only when truthy, `hasMore`
compares the page length against `limit || 0`, and — as the source
comment concedes — the `startAfter` option is read but never turned into
a query constraint. -/
def queryContent (collection : List ContentItem) (options : Option ContentQueryOptions) :
    ContentQueryResult :=
  let lim : Option Nat := (options.bind (fun o => o.pagination)).bind (fun p => p.limit)
  let docs :=
    match lim with
    | some n => if n = 0 then collection else collection.take n
    | none => collection
  { items := docs
    hasMore := decide (docs.length = (match lim with | some n => n | none => 0))
    lastDocId := match docs.getLast? with | some it => some it.id | none => none }

/-- The slice of manager state `loadMore` reads and writes. -/
structure ListState where
  items : List ContentItem
  loading : Bool
  hasMore : Bool
  queryOptions : Option ContentQueryOptions
  deriving Repr, DecidableEq

/-- The options object `loadMore` builds: the previous options with the
pagination record overwritten so that `startAfter` is the cursor and the
rest is kept. -/
def withStartAfter (options : Option ContentQueryOptions) (cursor : Option String) :
    Option ContentQueryOptions :=
  let lim := (options.bind (fun o => o.pagination)).bind (fun p => p.limit)
  some { pagination := some { limit := lim, startAfter := cursor } }

/-- Embeds `loadMore` (useContentManager): no-op when no further page is
known or a load is in flight; otherwise re-query with the last item id as
the continuation cursor and append the returned page. -/
def loadMore (collection : List ContentItem) (s : ListState) : ListState :=
  if ¬ s.hasMore ∨ s.loading then s
  else
    let lastItem := s.items.getLast?
    let paginationOptions := withStartAfter s.queryOptions (lastItem.map (fun it => it.id))
    let result := queryContent collection paginationOptions
    { s with
      items := s.items ++ result.items
      hasMore := result.hasMore
      loading := false }

/-! ## Helper lemmas -/

theorem char_toNat_ofNat {n : Nat} (h : n.isValidChar) : (Char.ofNat n).toNat = n := by
  simp [Char.ofNat, dif_pos h, Char.ofNatAux, Char.toNat, UInt32.toNat, BitVec.toNat_ofNatLt]

theorem char_toNat_inj {c d : Char} (h : c.toNat = d.toNat) : c = d := by
  have hc := Char.ofNat_toNat c
  rw [h, Char.ofNat_toNat] at hc
  exact hc.symm

theorem char_toLower_toNat (c : Char) :
    (Char.toLower c).toNat =
      if 65 ≤ c.toNat ∧ c.toNat ≤ 90 then c.toNat + 32 else c.toNat := by
  unfold Char.toLower
  split
  · next h =>
    have hv : (c.toNat + 32).isValidChar := Or.inl (by omega)
    rw [if_pos (by omega)]
    exact char_toNat_ofNat hv
  · next h => rw [if_neg (by omega)]

theorem char_toLower_idem (c : Char) :
    Char.toLower (Char.toLower c) = Char.toLower c := by
  apply char_toNat_inj
  rw [char_toLower_toNat, char_toLower_toNat]
  by_cases h : 65 ≤ c.toNat ∧ c.toNat ≤ 90
  · simp only [if_pos h]
    rw [if_neg (by omega)]
  · simp only [if_neg h]

theorem char_toLower_eq_dot_iff (c : Char) : Char.toLower c = '.' ↔ c = '.' := by
  constructor
  · intro h
    apply char_toNat_inj
    have ht : (Char.toLower c).toNat = ('.' : Char).toNat := by rw [h]
    rw [char_toLower_toNat] at ht
    by_cases hc : 65 ≤ c.toNat ∧ c.toNat ≤ 90
    · rw [if_pos hc] at ht
      have : ('.' : Char).toNat = 46 := by decide
      omega
    · rwa [if_neg hc] at ht
  · intro h; rw [h]; decide

theorem lowerList_idem (l : List Char) : lowerList (lowerList l) = lowerList l := by
  unfold lowerList
  rw [List.map_map]
  exact List.map_congr_left (fun c _ => char_toLower_idem c)

theorem extAux_head {l e : List Char} (h : extAux l = some e) : ∃ t, e = '.' :: t := by
  induction l with
  | nil => simp [extAux] at h
  | cons c cs ih =>
    unfold extAux at h
    cases hcs : extAux cs with
    | some e0 =>
      rw [hcs] at h
      have he : e0 = e := by injection h
      rw [he] at hcs
      exact ih hcs
    | none =>
      rw [hcs] at h
      by_cases hc : c = '.'
      · rw [if_pos hc] at h
        injection h with h
        exact ⟨cs, by rw [← h, hc]⟩
      · rw [if_neg hc] at h
        cases h

theorem extAux_map_lower (l : List Char) :
    extAux (lowerList l) = (extAux l).map lowerList := by
  induction l with
  | nil => rfl
  | cons c cs ih =>
    show extAux (Char.toLower c :: lowerList cs) = _
    unfold extAux
    rw [ih]
    cases hcs : extAux cs with
    | some e => rfl
    | none =>
      by_cases hc : c = '.'
      · rw [if_pos ((char_toLower_eq_dot_iff c).mpr hc), if_pos hc]
        simp [lowerList, hc]
      · rw [if_neg (fun hl => hc ((char_toLower_eq_dot_iff c).mp hl)), if_neg hc]
        rfl

theorem getFileExtension_lower (name : String) :
    getFileExtension (lowerStr name) = getFileExtension name := by
  show getFileExtension (String.mk (lowerList name.data)) = _
  unfold getFileExtension
  show (match extAux (lowerList name.data) with
        | none => ""
        | some e => if e.length = 1 then "" else String.mk (lowerList e)) = _
  rw [extAux_map_lower]
  cases h : extAux name.data with
  | none => rfl
  | some e =>
    show (if (lowerList e).length = 1 then "" else String.mk (lowerList (lowerList e))) = _
    rw [lowerList_idem]
    unfold lowerList
    rw [List.length_map]

/-! ## Claim theorems -/

/-- C3: for every file batch and config with `maxTotalSize` set, when the
sum of the candidate sizes exceeds it, every result returned by
`validateFiles` is invalid with the total-size-exceeded error —
candidates that individually pass the per-file checks included. -/
theorem validateFiles_totalSize_override
    (files : List FileDesc) (config : FileTypeConfig) (maxTotal : Nat)
    (hmax : config.maxTotalSize = some maxTotal)
    (hsum : maxTotal < files.foldl (fun sum f => sum + f.size) 0)
    (r : FileValidationResult) (hr : r ∈ validateFiles files config) :
    r.isValid = false ∧ r.error = some FileError.totalSizeExceeded := by
  unfold validateFiles at hr
  rw [hmax] at hr
  simp only [if_pos hsum] at hr
  rcases List.mem_map.mp hr with ⟨r0, _hr0, rfl⟩
  exact ⟨rfl, rfl⟩

/-- Witness for C3: the spec scenario of three 400-byte files against
`maxFileSize 1000, maxTotalSize 1000`; each file is individually valid
yet every batch result is the total-size-exceeded failure. -/
theorem validateFiles_totalSize_override_witness :
    ((⟨[], [], 1000, some 1000⟩ : FileTypeConfig).maxTotalSize = some 1000) ∧
    (1000 < ([⟨"a.pdf", 400⟩, ⟨"b.pdf", 400⟩, ⟨"c.pdf", 400⟩] : List FileDesc).foldl
        (fun sum f => sum + f.size) 0) ∧
    ((validateFile ⟨"a.pdf", 400⟩ ⟨[], [], 1000, some 1000⟩).isValid = true) ∧
    ((⟨⟨"a.pdf", 400⟩, false, some FileError.totalSizeExceeded, ".pdf"⟩ :
        FileValidationResult).isValid = false ∧
      (⟨⟨"a.pdf", 400⟩, false, some FileError.totalSizeExceeded, ".pdf"⟩ :
        FileValidationResult).error = some FileError.totalSizeExceeded) :=
  ⟨rfl, by decide, by decide,
    validateFiles_totalSize_override [⟨"a.pdf", 400⟩, ⟨"b.pdf", 400⟩, ⟨"c.pdf", 400⟩]
      ⟨[], [], 1000, some 1000⟩ 1000 rfl (by decide)
      ⟨⟨"a.pdf", 400⟩, false, some FileError.totalSizeExceeded, ".pdf"⟩ (by decide)⟩

/-- Counterexample for C6: the outcome of `validateFile` is not invariant
under the letter case of config entries.  The file `a.txt` passes when
the blocked list spells `.TXT` but is blocked when it spells `.txt`
(while the same uppercase-spelled file name is still blocked, showing the
asymmetry). -/
theorem validateFile_config_case_counterexample :
    (validateFile ⟨"a.txt", 1⟩ ⟨[], [".TXT"], 10, none⟩).isValid = true ∧
    (validateFile ⟨"a.txt", 1⟩ ⟨[], [".txt"], 10, none⟩).isValid = false ∧
    (validateFile ⟨"A.TXT", 1⟩ ⟨[], [".txt"], 10, none⟩).isValid = false := by
  decide

/-- C6 (amended): extension matching is case-insensitive in the letter
case of the filename — the extracted extension is lower-cased before any
comparison and always carries the leading dot — but the config entries
are compared verbatim, so only lower-case entries can match. -/
theorem validateFile_case_insensitive :
    (∀ (name : String) (size : Nat) (config : FileTypeConfig),
        (validateFile ⟨lowerStr name, size⟩ config).isValid =
            (validateFile ⟨name, size⟩ config).isValid ∧
          (validateFile ⟨lowerStr name, size⟩ config).error =
            (validateFile ⟨name, size⟩ config).error ∧
          (validateFile ⟨lowerStr name, size⟩ config).extension =
            (validateFile ⟨name, size⟩ config).extension) ∧
    (∀ name : String, getFileExtension name = "" ∨
        ∃ rest, (getFileExtension name).data = '.' :: rest) := by
  constructor
  · intro name size config
    unfold validateFile
    simp only [getFileExtension_lower]
    split_ifs <;> exact ⟨rfl, rfl, rfl⟩
  · intro name
    unfold getFileExtension
    cases h : extAux name.data with
    | none => exact Or.inl rfl
    | some e =>
      rcases extAux_head h with ⟨t, rfl⟩
      by_cases hl : ('.' :: t).length = 1
      · exact Or.inl (by simp [hl])
      · have ht : t ≠ [] := fun he => hl (by simp [he])
        exact Or.inr ⟨lowerList t, by simp [hl, lowerList, ht]⟩

/-- Counterexample for C9: a Url item carrying a size value does
contribute to `totalFileSize` — `getStats` on a single Url item of size 5
reports 5 where the spec-described File-only sum is 0. -/
theorem getStats_totalFileSize_counterexample :
    (getStats [⟨"u1", ContentType.url, "https://x", some "https://x", some 5, none,
        ContentStatus.pending, false, none, 0, 0⟩]).totalFileSize = 5 ∧
    specTotalFileSize [⟨"u1", ContentType.url, "https://x", some "https://x", some 5, none,
        ContentStatus.pending, false, none, 0, 0⟩] = 0 ∧
    (5 : Nat) ≠ 0 :=
  ⟨rfl, rfl, by decide⟩

/-- C9 (amended): `getStats` sums the size field over every item carrying
a (nonzero) size regardless of its kind; under the data-model invariant
that only File items carry a size, this agrees with the File-only sum the
spec describes. -/
theorem getStats_totalFileSize_files_only
    (items : List ContentItem)
    (hinv : ∀ item ∈ items, item.size.isSome = true → item.type = ContentType.file) :
    (getStats items).totalFileSize = specTotalFileSize items := by
  have proj : ∀ (l : List ContentItem) (init : ContentStats),
      (l.foldl
        (fun stats item =>
          { stats with
            byType := fun t => if t = item.type then stats.byType t + 1 else stats.byType t
            byStatus := fun st =>
              if st = item.status then stats.byStatus st + 1 else stats.byStatus st
            totalFileSize :=
              match item.size with
              | some n => if n ≠ 0 then stats.totalFileSize + n else stats.totalFileSize
              | none => stats.totalFileSize }) init).totalFileSize =
      l.foldl
        (fun acc item =>
          match item.size with
          | some n => if n ≠ 0 then acc + n else acc
          | none => acc) init.totalFileSize := by
    intro l
    induction l with
    | nil => intro init; rfl
    | cons it its ih => intro init; exact ih _
  have key : ∀ (l : List ContentItem),
      (∀ item ∈ l, item.size.isSome = true → item.type = ContentType.file) →
      ∀ acc : Nat,
        l.foldl
          (fun acc item =>
            match item.size with
            | some n => if n ≠ 0 then acc + n else acc
            | none => acc) acc =
        l.foldl
          (fun acc item =>
            match item.type, item.size with
            | ContentType.file, some n => acc + n
            | _, _ => acc) acc := by
    intro l
    induction l with
    | nil => intro _ acc; rfl
    | cons it its ih =>
      intro hl acc
      have hhead : it.size.isSome = true → it.type = ContentType.file :=
        hl it (List.mem_cons_self it its)
      have htail : ∀ item ∈ its, item.size.isSome = true → item.type = ContentType.file :=
        fun x hx => hl x (List.mem_cons_of_mem it hx)
      have hstep :
          (match it.size with
           | some n => if n ≠ 0 then acc + n else acc
           | none => acc) =
          (match it.type, it.size with
           | ContentType.file, some n => acc + n
           | _, _ => acc) := by
        cases hs : it.size with
        | none => cases it.type <;> rfl
        | some n =>
          have hf : it.type = ContentType.file := hhead (by rw [hs]; rfl)
          rw [hf]
          by_cases hn : n = 0
          · subst hn; simp
          · simp [hn]
      show its.foldl _ (match it.size with
        | some n => if n ≠ 0 then acc + n else acc
        | none => acc) = _
      rw [hstep]
      exact ih htail _
  have h2 : specTotalFileSize items =
      items.foldl
        (fun acc item =>
          match item.type, item.size with
          | ContentType.file, some n => acc + n
          | _, _ => acc) 0 := rfl
  calc (getStats items).totalFileSize
      = items.foldl
          (fun acc item =>
            match item.size with
            | some n => if n ≠ 0 then acc + n else acc
            | none => acc) 0 := proj items _
    _ = specTotalFileSize items := by rw [key items hinv 0]; exact h2.symm

/-- Witness for C9 amended theorem: a list of one File item with a size
and one Url item without a size satisfies the invariant; getStats agrees
with the File-only sum there. -/
theorem getStats_totalFileSize_files_only_witness :
    (∀ item ∈ ([⟨"f1", ContentType.file, "r.pdf", none, some 4, none, ContentStatus.pending,
          false, none, 0, 0⟩,
        ⟨"u1", ContentType.url, "https://x", some "https://x", none, none,
          ContentStatus.pending, false, none, 0, 0⟩] : List ContentItem),
      item.size.isSome = true → item.type = ContentType.file) ∧
    (getStats [⟨"f1", ContentType.file, "r.pdf", none, some 4, none, ContentStatus.pending,
          false, none, 0, 0⟩,
        ⟨"u1", ContentType.url, "https://x", some "https://x", none, none,
          ContentStatus.pending, false, none, 0, 0⟩]).totalFileSize =
      specTotalFileSize [⟨"f1", ContentType.file, "r.pdf", none, some 4, none,
          ContentStatus.pending, false, none, 0, 0⟩,
        ⟨"u1", ContentType.url, "https://x", some "https://x", none, none,
          ContentStatus.pending, false, none, 0, 0⟩] :=
  ⟨by decide, getStats_totalFileSize_files_only _ (by decide)⟩

theorem pathSerial_eq_root {l : List String} (h : pathSerial l = "/") : l = [""] := by
  have hd : l.flatMap (fun seg => '/' :: seg.data) = ['/'] := congrArg String.data h
  cases l with
  | nil => simp at hd
  | cons s r =>
    cases r with
    | nil =>
      simp only [List.flatMap_cons, List.flatMap_nil, List.append_nil, List.cons.injEq,
        true_and] at hd
      have hs : s = "" := String.ext hd
      rw [hs]
    | cons t r2 =>
      exfalso
      rw [List.flatMap_cons, List.flatMap_cons, List.cons_append] at hd
      have htl := congrArg List.tail hd
      simp only [List.tail_cons] at htl
      have h2 := (List.append_eq_nil.mp htl).2
      rw [List.cons_append] at h2
      exact List.cons_ne_nil _ _ h2

theorem normalizeUrl_eq (u : URLRec) :
    normalizeUrl u = serializeURL { u with
      hostname := lowerStr u.hostname
      port := if (u.protocol = "http:" ∧ u.port = some 80) ∨
          (u.protocol = "https:" ∧ u.port = some 443) then none else u.port } := by
  obtain ⟨prot, host, port, pa, q, fr⟩ := u
  unfold normalizeUrl
  dsimp only
  by_cases hport : (prot = "http:" ∧ port = some 80) ∨ (prot = "https:" ∧ port = some 443)
  · rw [if_pos hport]
    dsimp only
    by_cases hroot : pathSerial pa = "/"
    · rw [if_pos hroot, pathSerial_eq_root hroot, if_pos hport]
    · rw [if_neg hroot, if_pos hport]
  · rw [if_neg hport]
    dsimp only
    by_cases hroot : pathSerial pa = "/"
    · rw [if_pos hroot, pathSerial_eq_root hroot, if_neg hport]
    · rw [if_neg hroot, if_neg hport]

theorem normalizeUrl_eq_of_default (u : URLRec)
    (h : (u.protocol = "http:" ∧ u.port = some 80) ∨
      (u.protocol = "https:" ∧ u.port = some 443)) :
    normalizeUrl u = serializeURL { u with hostname := lowerStr u.hostname, port := none } :=
  (normalizeUrl_eq u).trans (by rw [if_pos h])

theorem normalizeUrl_eq_of_nondefault (u : URLRec)
    (h : ¬ ((u.protocol = "http:" ∧ u.port = some 80) ∨
      (u.protocol = "https:" ∧ u.port = some 443))) :
    normalizeUrl u = serializeURL { u with hostname := lowerStr u.hostname } :=
  (normalizeUrl_eq u).trans (by rw [if_neg h])

/-- Counterexample for C4: an accepted URL whose path is exactly the root
slash is returned WITH the trailing slash — the pathname assignment in
`normalizeUrl` cannot empty the path of a special-scheme URL, so
`https://example.com` validates to `https://example.com/`, not to the
slash-free form the claim describes. -/
theorem validateUrl_root_slash_counterexample :
    (validateUrl exampleParse "https://example.com" defaultUrlConfig).isValid = true ∧
    (validateUrl exampleParse "https://example.com" defaultUrlConfig).url =
      "https://example.com/" ∧
    "https://example.com/" ≠ "https://example.com" := by
  refine ⟨by decide, by decide, by decide⟩

/-- C4 (amended): for every URL accepted by `validateUrl`, the returned
url is the serialization of the parsed record with the host lower-cased
and an explicit default port cleared (80 for http, 443 for https) and
with the path, query and fragment unchanged: the attempted collapse of a
root path `/` has no effect, so such URLs keep their trailing slash. -/
theorem validateUrl_normalized_form
    (parse : String → Option URLRec) (url : String) (config : UrlConfig) (u : URLRec)
    (hparse : parse (jsTrim url) = some u)
    (hvalid : (validateUrl parse url config).isValid = true) :
    (validateUrl parse url config).url =
      serializeURL { u with
        hostname := lowerStr u.hostname
        port := if (u.protocol = "http:" ∧ u.port = some 80) ∨
            (u.protocol = "https:" ∧ u.port = some 443) then none else u.port } := by
  unfold validateUrl at hvalid ⊢
  dsimp only at hvalid ⊢
  rw [hparse] at hvalid ⊢
  dsimp only at hvalid ⊢
  split_ifs at hvalid ⊢ <;>
    first
      | exact normalizeUrl_eq_of_default u (by assumption)
      | exact normalizeUrl_eq_of_nondefault u (by assumption)

/-- Witness for C4 amended theorem at the concrete accepted URL
`https://example.com`. -/
theorem validateUrl_normalized_form_witness :
    (exampleParse (jsTrim "https://example.com") =
      some ⟨"https:", "example.com", none, [""], none, none⟩) ∧
    (validateUrl exampleParse "https://example.com" defaultUrlConfig).isValid = true ∧
    (validateUrl exampleParse "https://example.com" defaultUrlConfig).url =
      "https://example.com/" :=
  ⟨rfl, by decide,
    (validateUrl_normalized_form exampleParse "https://example.com" defaultUrlConfig
        ⟨"https:", "example.com", none, [""], none, none⟩ rfl (by decide)).trans (by decide)⟩

/-- Counterexample for C7: with a two-record collection and page size 1,
the first page holds the first record; `loadMore` re-queries with the
cursor set but `queryContent` ignores it, so the appended page repeats
the already-loaded record instead of following it. -/
theorem loadMore_repeats_counterexample :
    (loadMore
        [⟨"a", ContentType.url, "a", none, none, none, ContentStatus.pending, false, none, 0, 0⟩,
          ⟨"b", ContentType.url, "b", none, none, none, ContentStatus.pending, false, none, 0, 0⟩]
        ⟨[⟨"a", ContentType.url, "a", none, none, none, ContentStatus.pending, false, none,
            0, 0⟩],
          false, true, some ⟨some ⟨some 1, none⟩⟩⟩).items =
      [⟨"a", ContentType.url, "a", none, none, none, ContentStatus.pending, false, none, 0, 0⟩,
        ⟨"a", ContentType.url, "a", none, none, none, ContentStatus.pending, false, none,
          0, 0⟩] ∧
    ¬ (loadMore
        [⟨"a", ContentType.url, "a", none, none, none, ContentStatus.pending, false, none, 0, 0⟩,
          ⟨"b", ContentType.url, "b", none, none, none, ContentStatus.pending, false, none, 0, 0⟩]
        ⟨[⟨"a", ContentType.url, "a", none, none, none, ContentStatus.pending, false, none,
            0, 0⟩],
          false, true, some ⟨some ⟨some 1, none⟩⟩⟩).items.Nodup := by
  constructor <;> decide

/-- C7 (amended): `loadMore` is a no-op while a load is in flight or when
no further page is known; otherwise it appends the page returned by
re-querying with the last item id as `startAfter` — but `queryContent`
never turns the cursor into a constraint, so the appended page is the
same first page the cursor-free query returns and may repeat
previously-loaded items. -/
theorem loadMore_cursor_ignored (collection : List ContentItem) (s : ListState) :
    ((s.loading = true ∨ s.hasMore = false) → loadMore collection s = s) ∧
    (∀ (options : Option ContentQueryOptions) (c₁ c₂ : Option String),
      queryContent collection (withStartAfter options c₁) =
        queryContent collection (withStartAfter options c₂)) ∧
    (s.loading = false → s.hasMore = true →
      (loadMore collection s).items =
        s.items ++ (queryContent collection (withStartAfter s.queryOptions none)).items) := by
  refine ⟨?_, ?_, ?_⟩
  · intro h
    unfold loadMore
    rw [if_pos]
    rcases h with h | h
    · exact Or.inr h
    · exact Or.inl (by simp [h])
  · intro options c₁ c₂
    rfl
  · intro hl hm
    unfold loadMore
    rw [if_neg (by simp [hl, hm])]
    rfl

/-- Witness for C7 amended theorem: a loading state is left unchanged,
and a loadable state appends the cursor-free query result. -/
theorem loadMore_cursor_ignored_witness :
    (loadMore ([] : List ContentItem) ⟨[], true, true, none⟩ = ⟨[], true, true, none⟩) ∧
    ((loadMore ([] : List ContentItem) ⟨[], false, true, none⟩).items =
      [] ++ (queryContent ([] : List ContentItem) (withStartAfter none none)).items) :=
  ⟨(loadMore_cursor_ignored [] ⟨[], true, true, none⟩).1 (Or.inl rfl),
    (loadMore_cursor_ignored [] ⟨[], false, true, none⟩).2.2 rfl rfl⟩

/-- C10: `updateItem` and `deleteItem` mutate local state only after the
remote call resolved — a rejected `updateContent` or `deleteContent`
leaves the local item list entirely unchanged, and on success the local
list receives exactly the optimistic mutation (patch with `updatedAt`
now, or removal of the item). -/
theorem updateItem_deleteItem_atomic
    (updateOk : Bool) (serverNow now : Nat) (store : RemoteStore)
    (items : List ContentItem) (id : String) (data : UpdateContentData)
    (blobOk : String → Bool) (docOk : Bool) :
    (updateContent updateOk serverNow store id data = none →
      (updateItem updateOk serverNow now store items id data).items = items) ∧
    (∀ newStore, updateContent updateOk serverNow store id data = some newStore →
      (updateItem updateOk serverNow now store items id data).items =
        updateItemLocal now id data items) ∧
    ((deleteContent blobOk docOk store id).ok = false →
      (deleteItem blobOk docOk store items id).items = items) ∧
    ((deleteContent blobOk docOk store id).ok = true →
      (deleteItem blobOk docOk store items id).items =
        items.filter (fun item => decide (¬ item.id = id))) := by
  refine ⟨?_, ?_, ?_, ?_⟩
  · intro h
    unfold updateItem
    rw [h]
  · intro newStore h
    unfold updateItem
    rw [h]
  · intro h
    unfold deleteItem
    dsimp only
    rw [h]
    rfl
  · intro h
    unfold deleteItem
    dsimp only
    rw [h]
    rfl

/-- Witness for C10 at a one-record store: a rejected update and a
rejected delete leave the list unchanged; accepted ones apply the
optimistic mutation. -/
theorem updateItem_deleteItem_atomic_witness :
    ((updateItem false 5 6
        ⟨[⟨"x", ContentType.url, "u", none, none, none, ContentStatus.pending, false, none,
            0, 0⟩], []⟩
        [⟨"x", ContentType.url, "u", none, none, none, ContentStatus.pending, false, none,
            0, 0⟩] "x" (statusPatch .processing)).items =
      [⟨"x", ContentType.url, "u", none, none, none, ContentStatus.pending, false, none,
          0, 0⟩]) ∧
    ((updateItem true 5 6
        ⟨[⟨"x", ContentType.url, "u", none, none, none, ContentStatus.pending, false, none,
            0, 0⟩], []⟩
        [⟨"x", ContentType.url, "u", none, none, none, ContentStatus.pending, false, none,
            0, 0⟩] "x" (statusPatch .processing)).items =
      updateItemLocal 6 "x" (statusPatch .processing)
        [⟨"x", ContentType.url, "u", none, none, none, ContentStatus.pending, false, none,
            0, 0⟩]) ∧
    ((deleteItem (fun _ => false) false
        ⟨[⟨"x", ContentType.url, "u", none, none, none, ContentStatus.pending, false, none,
            0, 0⟩], []⟩
        [⟨"x", ContentType.url, "u", none, none, none, ContentStatus.pending, false, none,
            0, 0⟩] "x").items =
      [⟨"x", ContentType.url, "u", none, none, none, ContentStatus.pending, false, none,
          0, 0⟩]) ∧
    ((deleteItem (fun _ => false) true
        ⟨[⟨"x", ContentType.url, "u", none, none, none, ContentStatus.pending, false, none,
            0, 0⟩], []⟩
        [⟨"x", ContentType.url, "u", none, none, none, ContentStatus.pending, false, none,
            0, 0⟩] "x").items =
      [⟨"x", ContentType.url, "u", none, none, none, ContentStatus.pending, false, none,
          0, 0⟩].filter (fun item => decide (¬ item.id = "x"))) :=
  ⟨(updateItem_deleteItem_atomic false 5 6 _ _ "x" (statusPatch .processing)
      (fun _ => false) false).1 (by decide),
    (updateItem_deleteItem_atomic true 5 6 _ _ "x" (statusPatch .processing)
      (fun _ => false) false).2.1
      ⟨[⟨"x", ContentType.url, "u", none, none, none, ContentStatus.processing, false, none,
          0, 5⟩], []⟩ (by decide),
    (updateItem_deleteItem_atomic false 5 6 _ _ "x" (statusPatch .processing)
      (fun _ => false) false).2.2.1 (by decide),
    (updateItem_deleteItem_atomic false 5 6 _ _ "x" (statusPatch .processing)
      (fun _ => false) true).2.2.2 (by decide)⟩

/-- C8: deleting an item whose stored record carries a blob reference
attempts the blob deletion first and the record deletion second; when the
blob deletion fails, the failure is swallowed (the blob stays), the
record deletion still proceeds and the item is removed from local
state. -/
theorem deleteItem_blob_best_effort
    (blobOk : String → Bool) (store : RemoteStore) (items : List ContentItem)
    (id : String) (item : ContentItem) (r : String)
    (hfind : store.records.find? (fun x => decide (x.id = id)) = some item)
    (href : item.storageRef = some r)
    (hfail : blobOk r = false) :
    (deleteItem blobOk true store items id).trace =
      [RemoteEvent.blobDelete r, RemoteEvent.recordDelete id] ∧
    (deleteItem blobOk true store items id).store.records =
      store.records.filter (fun x => decide (¬ x.id = id)) ∧
    (deleteItem blobOk true store items id).store.blobs = store.blobs ∧
    (deleteItem blobOk true store items id).items =
      items.filter (fun x => decide (¬ x.id = id)) := by
  unfold deleteItem deleteContent
  rw [hfind]
  simp [href, hfail]

/-- Witness for C8: a store holding one record with blob path `p`, a blob
deletion that always fails, and the concrete delete call. -/
theorem deleteItem_blob_best_effort_witness :
    ((⟨[⟨"x", ContentType.file, "f.pdf", none, some 1, none, ContentStatus.pending, false,
          some "p", 0, 0⟩], ["p"]⟩ : RemoteStore).records.find?
        (fun x => decide (x.id = "x")) =
      some ⟨"x", ContentType.file, "f.pdf", none, some 1, none, ContentStatus.pending, false,
        some "p", 0, 0⟩) ∧
    ((deleteItem (fun _ => false) true
        ⟨[⟨"x", ContentType.file, "f.pdf", none, some 1, none, ContentStatus.pending, false,
            some "p", 0, 0⟩], ["p"]⟩
        [⟨"x", ContentType.file, "f.pdf", none, some 1, none, ContentStatus.pending, false,
            some "p", 0, 0⟩] "x").trace =
      [RemoteEvent.blobDelete "p", RemoteEvent.recordDelete "x"] ∧
      (deleteItem (fun _ => false) true
        ⟨[⟨"x", ContentType.file, "f.pdf", none, some 1, none, ContentStatus.pending, false,
            some "p", 0, 0⟩], ["p"]⟩
        [⟨"x", ContentType.file, "f.pdf", none, some 1, none, ContentStatus.pending, false,
            some "p", 0, 0⟩] "x").store.blobs = ["p"]) :=
  ⟨by decide,
    (deleteItem_blob_best_effort (fun _ => false)
      ⟨[⟨"x", ContentType.file, "f.pdf", none, some 1, none, ContentStatus.pending, false,
          some "p", 0, 0⟩], ["p"]⟩
      [⟨"x", ContentType.file, "f.pdf", none, some 1, none, ContentStatus.pending, false,
          some "p", 0, 0⟩] "x"
      ⟨"x", ContentType.file, "f.pdf", none, some 1, none, ContentStatus.pending, false,
          some "p", 0, 0⟩ "p" (by decide) rfl rfl).1,
    (deleteItem_blob_best_effort (fun _ => false)
      ⟨[⟨"x", ContentType.file, "f.pdf", none, some 1, none, ContentStatus.pending, false,
          some "p", 0, 0⟩], ["p"]⟩
      [⟨"x", ContentType.file, "f.pdf", none, some 1, none, ContentStatus.pending, false,
          some "p", 0, 0⟩] "x"
      ⟨"x", ContentType.file, "f.pdf", none, some 1, none, ContentStatus.pending, false,
          some "p", 0, 0⟩ "p" (by decide) rfl rfl).2.2.1⟩

theorem applyPatch_id (now : Nat) (d : UpdateContentData) (item : ContentItem) :
    (applyPatch now d item).id = item.id := rfl

theorem foldl_updateItemLocal (now : Nat) (d : UpdateContentData)
    (hidem : ∀ b : ContentItem, applyPatch now d (applyPatch now d b) = applyPatch now d b)
    (todo base : List ContentItem) :
    todo.foldl (fun acc it => updateItemLocal now it.id d acc) base =
      base.map (fun b =>
        if todo.any (fun t => decide (t.id = b.id)) = true then applyPatch now d b else b) := by
  induction todo generalizing base with
  | nil =>
    simp only [List.foldl_nil, List.any_nil]
    have hmap : base.map (fun b => if false = true then applyPatch now d b else b) =
        base.map (fun b => b) := List.map_congr_left (fun b _ => by simp)
    exact (hmap.trans (List.map_id' base)).symm
  | cons t ts ih =>
    rw [List.foldl_cons, ih]
    unfold updateItemLocal
    rw [List.map_map]
    apply List.map_congr_left
    intro b _hb
    show (fun x =>
        if ts.any (fun tt => decide (tt.id = x.id)) = true then applyPatch now d x else x)
        (if b.id = t.id then applyPatch now d b else b) =
      if (t :: ts).any (fun tt => decide (tt.id = b.id)) = true then applyPatch now d b else b
    by_cases hbt : b.id = t.id
    · rw [if_pos hbt]
      dsimp only
      have hcons : (t :: ts).any (fun tt => decide (tt.id = b.id)) = true := by
        simp [List.any_cons, hbt.symm]
      rw [if_pos hcons]
      by_cases hts : ts.any (fun tt => decide (tt.id = (applyPatch now d b).id)) = true
      · rw [if_pos hts]
        exact hidem b
      · rw [if_neg hts]
    · rw [if_neg hbt]
      dsimp only
      have hcons : ((t :: ts).any (fun tt => decide (tt.id = b.id)) = true) ↔
          (ts.any (fun tt => decide (tt.id = b.id)) = true) := by
        rw [List.any_cons]
        constructor
        · intro h
          rcases Bool.or_eq_true_iff.mp h with h1 | h2
          · exact absurd (of_decide_eq_true h1).symm hbt
          · exact h2
        · intro h
          exact Bool.or_eq_true_iff.mpr (Or.inr h)
      by_cases hts : ts.any (fun tt => decide (tt.id = b.id)) = true
      · rw [if_pos hts, if_pos (hcons.mpr hts)]
      · rw [if_neg hts, if_neg (fun h => hts (hcons.mp h))]

/-- Counterexample for C2: the delayed phase of `processAll` moves the
collected items to the status string `added`, not to the distinct
`completed` status the code's own status vocabulary also contains. -/
theorem processAll_counterexample :
    ((processAll 1 2 [⟨"p1", ContentType.url, "u", none, none, none, ContentStatus.pending,
        false, none, 0, 0⟩]).2.map (fun item => item.status)) = [ContentStatus.added] ∧
    ContentStatus.added ≠ ContentStatus.completed := by
  constructor <;> decide

/-- C2 (amended): over a list with distinct ids, `processAll` transitions
exactly the Pending items to Processing (via the `updateItem` patch with
`updatedAt` refreshed), and the delayed phase transitions the same items
to the terminal `added` status, leaving every other item untouched. -/
theorem processAll_marks_pending
    (now1 now2 : Nat) (items : List ContentItem)
    (hids : (items.map (fun item => item.id)).Nodup) :
    (processAll now1 now2 items).1 =
      items.map (fun item =>
        if item.status = ContentStatus.pending then
          applyPatch now1 (statusPatch ContentStatus.processing) item
        else item) ∧
    (processAll now1 now2 items).2 =
      items.map (fun item =>
        if item.status = ContentStatus.pending then
          applyPatch now2 (statusPatch ContentStatus.added) item
        else item) := by
  unfold processAll
  by_cases hp : (items.filter (fun item => decide (item.status = ContentStatus.pending))).length
      = 0
  · rw [if_pos hp]
    have hnone : ∀ it ∈ items, ¬ (it.status = ContentStatus.pending) := by
      rw [List.length_eq_zero] at hp
      intro it hit hst
      have hmem : it ∈ items.filter (fun item =>
          decide (item.status = ContentStatus.pending)) :=
        List.mem_filter.mpr ⟨hit, by simp [hst]⟩
      rw [hp] at hmem
      cases hmem
    constructor
    · show items = _
      have hmap : items.map (fun item =>
            if item.status = ContentStatus.pending then
              applyPatch now1 (statusPatch ContentStatus.processing) item
            else item) = items.map (fun item => item) :=
        List.map_congr_left (fun it hit => if_neg (hnone it hit))
      exact (hmap.trans (List.map_id' items)).symm
    · show items = _
      have hmap : items.map (fun item =>
            if item.status = ContentStatus.pending then
              applyPatch now2 (statusPatch ContentStatus.added) item
            else item) = items.map (fun item => item) :=
        List.map_congr_left (fun it hit => if_neg (hnone it hit))
      exact (hmap.trans (List.map_id' items)).symm
  · rw [if_neg hp]
    dsimp only
    have hany : ∀ b ∈ items,
        ((items.filter (fun item => decide (item.status = ContentStatus.pending))).any
          (fun t => decide (t.id = b.id)) = true) ↔ b.status = ContentStatus.pending := by
      intro b hb
      constructor
      · intro h
        rcases List.any_eq_true.mp h with ⟨t, ht, hdec⟩
        have htid : t.id = b.id := of_decide_eq_true hdec
        have htmem := List.mem_filter.mp ht
        have hteq : t = b := List.inj_on_of_nodup_map hids htmem.1 hb htid
        rw [← hteq]
        exact of_decide_eq_true htmem.2
      · intro h
        exact List.any_eq_true.mpr
          ⟨b, List.mem_filter.mpr ⟨hb, by simp [h]⟩, by simp⟩
    constructor
    · rw [foldl_updateItemLocal now1 (statusPatch ContentStatus.processing)
        (fun b => rfl) _ items]
      apply List.map_congr_left
      intro b hb
      by_cases hbs : b.status = ContentStatus.pending
      · rw [if_pos ((hany b hb).mpr hbs), if_pos hbs]
      · rw [if_neg (fun h => hbs ((hany b hb).mp h)), if_neg hbs]
    · rw [foldl_updateItemLocal now1 (statusPatch ContentStatus.processing)
        (fun b => rfl) _ items,
        foldl_updateItemLocal now2 (statusPatch ContentStatus.added)
        (fun b => rfl) _ _,
        List.map_map]
      apply List.map_congr_left
      intro b hb
      show (fun x =>
          if (items.filter (fun item => decide (item.status = ContentStatus.pending))).any
              (fun t => decide (t.id = x.id)) = true then
            applyPatch now2 (statusPatch ContentStatus.added) x
          else x)
          (if (items.filter (fun item => decide (item.status = ContentStatus.pending))).any
              (fun t => decide (t.id = b.id)) = true then
            applyPatch now1 (statusPatch ContentStatus.processing) b
          else b) = _
      by_cases hbs : b.status = ContentStatus.pending
      · rw [if_pos ((hany b hb).mpr hbs)]
        dsimp only
        rw [show ((items.filter (fun item =>
            decide (item.status = ContentStatus.pending))).any
              (fun t => decide (t.id =
                (applyPatch now1 (statusPatch ContentStatus.processing) b).id))) =
            ((items.filter (fun item => decide (item.status = ContentStatus.pending))).any
              (fun t => decide (t.id = b.id))) from rfl,
          if_pos ((hany b hb).mpr hbs), if_pos hbs]
        rfl
      · rw [if_neg (fun h => hbs ((hany b hb).mp h))]
        dsimp only
        rw [if_neg (fun h => hbs ((hany b hb).mp h)), if_neg hbs]

/-- Witness for C2 amended theorem: two Pending items and one Completed
item with distinct ids; the first phase marks exactly the two Pending
ones Processing, the delayed phase marks the same two `added`. -/
theorem processAll_marks_pending_witness :
    ((([⟨"p1", ContentType.url, "u1", none, none, none, ContentStatus.pending, false, none,
          0, 0⟩,
        ⟨"p2", ContentType.url, "u2", none, none, none, ContentStatus.pending, false, none,
          0, 0⟩,
        ⟨"c1", ContentType.url, "u3", none, none, none, ContentStatus.completed, false, none,
          0, 0⟩] : List ContentItem).map (fun item => item.id)).Nodup) ∧
    ((processAll 1 2 [⟨"p1", ContentType.url, "u1", none, none, none, ContentStatus.pending,
          false, none, 0, 0⟩,
        ⟨"p2", ContentType.url, "u2", none, none, none, ContentStatus.pending, false, none,
          0, 0⟩,
        ⟨"c1", ContentType.url, "u3", none, none, none, ContentStatus.completed, false, none,
          0, 0⟩]).1 =
      ([⟨"p1", ContentType.url, "u1", none, none, none, ContentStatus.pending, false, none,
          0, 0⟩,
        ⟨"p2", ContentType.url, "u2", none, none, none, ContentStatus.pending, false, none,
          0, 0⟩,
        ⟨"c1", ContentType.url, "u3", none, none, none, ContentStatus.completed, false, none,
          0, 0⟩] : List ContentItem).map (fun item =>
        if item.status = ContentStatus.pending then
          applyPatch 1 (statusPatch ContentStatus.processing) item
        else item)) ∧
    ((processAll 1 2 [⟨"p1", ContentType.url, "u1", none, none, none, ContentStatus.pending,
          false, none, 0, 0⟩,
        ⟨"p2", ContentType.url, "u2", none, none, none, ContentStatus.pending, false, none,
          0, 0⟩,
        ⟨"c1", ContentType.url, "u3", none, none, none, ContentStatus.completed, false, none,
          0, 0⟩]).2 =
      ([⟨"p1", ContentType.url, "u1", none, none, none, ContentStatus.pending, false, none,
          0, 0⟩,
        ⟨"p2", ContentType.url, "u2", none, none, none, ContentStatus.pending, false, none,
          0, 0⟩,
        ⟨"c1", ContentType.url, "u3", none, none, none, ContentStatus.completed, false, none,
          0, 0⟩] : List ContentItem).map (fun item =>
        if item.status = ContentStatus.pending then
          applyPatch 2 (statusPatch ContentStatus.added) item
        else item)) :=
  ⟨by decide,
    (processAll_marks_pending 1 2
      [⟨"p1", ContentType.url, "u1", none, none, none, ContentStatus.pending, false, none,
          0, 0⟩,
        ⟨"p2", ContentType.url, "u2", none, none, none, ContentStatus.pending, false, none,
          0, 0⟩,
        ⟨"c1", ContentType.url, "u3", none, none, none, ContentStatus.completed, false, none,
          0, 0⟩] (by decide)).1,
    (processAll_marks_pending 1 2
      [⟨"p1", ContentType.url, "u1", none, none, none, ContentStatus.pending, false, none,
          0, 0⟩,
        ⟨"p2", ContentType.url, "u2", none, none, none, ContentStatus.pending, false, none,
          0, 0⟩,
        ⟨"c1", ContentType.url, "u3", none, none, none, ContentStatus.completed, false, none,
          0, 0⟩] (by decide)).2⟩

theorem filter_bool_length (l : List Bool) :
    (l.filter (fun b => b)).length + (l.filter (fun b => !b)).length = l.length := by
  induction l with
  | nil => rfl
  | cons b bs ih => cases b <;> simp [List.filter_cons] <;> omega

theorem settleSummary_refreshes (l : List Bool) :
    (settleSummary l).refreshes = if 0 < (settleSummary l).succeeded then 1 else 0 := rfl

theorem settleSummary_split (l : List Bool) :
    (settleSummary l).succeeded + (settleSummary l).failedCount =
      (settleSummary l).attempted := by
  show (l.filter (fun b => b)).length + (l.filter (fun b => !b)).length = l.length
  exact filter_bool_length l

theorem addUrls_shape (parse : String → Option URLRec) (createOk : Nat → Bool)
    (items : List ContentItem) (text : String) (urlConfig : UrlConfig) :
    addUrls parse createOk items text urlConfig = ⟨0, 0, 0, 0⟩ ∨
    ∃ l, addUrls parse createOk items text urlConfig = settleSummary l := by
  unfold addUrls
  dsimp only
  split_ifs <;> first | exact Or.inl rfl | exact Or.inr ⟨_, rfl⟩

theorem addFiles_shape (uploadOk createOk : Nat → Bool) (items : List ContentItem)
    (files : List FileDesc) (fileConfig : FileTypeConfig) :
    addFiles uploadOk createOk items files fileConfig = ⟨0, 0, 0, 0⟩ ∨
    ∃ l, addFiles uploadOk createOk items files fileConfig = settleSummary l := by
  unfold addFiles
  dsimp only
  split_ifs <;> first | exact Or.inl rfl | exact Or.inr ⟨_, rfl⟩

/-- C1: in both ingestion calls every surviving candidate settles
independently (fulfilled plus rejected outcomes always account for every
attempted candidate — no rejection aborts the batch), and the state
refresh runs exactly once when at least one candidate persisted and never
otherwise. -/
theorem ingestion_refresh_iff_success
    (parse : String → Option URLRec) (createOkU uploadOk createOkF : Nat → Bool)
    (itemsU itemsF : List ContentItem) (text : String) (urlConfig : UrlConfig)
    (files : List FileDesc) (fileConfig : FileTypeConfig) :
    ((addUrls parse createOkU itemsU text urlConfig).refreshes =
      (if 0 < (addUrls parse createOkU itemsU text urlConfig).succeeded then 1 else 0)) ∧
    ((addUrls parse createOkU itemsU text urlConfig).succeeded +
      (addUrls parse createOkU itemsU text urlConfig).failedCount =
      (addUrls parse createOkU itemsU text urlConfig).attempted) ∧
    ((addFiles uploadOk createOkF itemsF files fileConfig).refreshes =
      (if 0 < (addFiles uploadOk createOkF itemsF files fileConfig).succeeded then 1
        else 0)) ∧
    ((addFiles uploadOk createOkF itemsF files fileConfig).succeeded +
      (addFiles uploadOk createOkF itemsF files fileConfig).failedCount =
      (addFiles uploadOk createOkF itemsF files fileConfig).attempted) := by
  have hu := addUrls_shape parse createOkU itemsU text urlConfig
  have hf := addFiles_shape uploadOk createOkF itemsF files fileConfig
  refine ⟨?_, ?_, ?_, ?_⟩
  · rcases hu with h | ⟨l, h⟩ <;> rw [h]
    · decide
    · exact settleSummary_refreshes l
  · rcases hu with h | ⟨l, h⟩ <;> rw [h]
    · decide
    · exact settleSummary_split l
  · rcases hf with h | ⟨l, h⟩ <;> rw [h]
    · decide
    · exact settleSummary_refreshes l
  · rcases hf with h | ⟨l, h⟩ <;> rw [h]
    · decide
    · exact settleSummary_split l

theorem mem_dedupAux {x : String} : ∀ {seen l : List String},
    x ∈ dedupAux seen l → x ∈ l ∧ x ∉ seen := by
  intro seen l
  induction l generalizing seen with
  | nil => intro h; cases h
  | cons y ys ih =>
    intro h
    unfold dedupAux at h
    by_cases hy : y ∈ seen
    · rw [if_pos hy] at h
      rcases ih h with ⟨h1, h2⟩
      exact ⟨List.mem_cons_of_mem y h1, h2⟩
    · rw [if_neg hy] at h
      rcases List.mem_cons.mp h with h1 | h1
      · subst h1; exact ⟨List.mem_cons_self _ _, hy⟩
      · rcases ih h1 with ⟨h2, h3⟩
        exact ⟨List.mem_cons_of_mem y h2, fun hx => h3 (List.mem_cons_of_mem y hx)⟩

theorem mem_dedupAux_of {x : String} : ∀ {seen l : List String},
    x ∈ l → x ∉ seen → x ∈ dedupAux seen l := by
  intro seen l
  induction l generalizing seen with
  | nil => intro h _; cases h
  | cons y ys ih =>
    intro hx hns
    unfold dedupAux
    by_cases hy : y ∈ seen
    · rw [if_pos hy]
      rcases List.mem_cons.mp hx with h1 | h1
      · subst h1; exact absurd hy hns
      · exact ih h1 hns
    · rw [if_neg hy]
      rcases List.mem_cons.mp hx with h1 | h1
      · subst h1; exact List.mem_cons_self _ _
      · by_cases hxy : x = y
        · subst hxy; exact List.mem_cons_self _ _
        · have hxts : x ∉ y :: seen := by
            intro hc
            rcases List.mem_cons.mp hc with hc1 | hc2
            · exact hxy hc1
            · exact hns hc2
          exact List.mem_cons_of_mem y (ih h1 hxts)

theorem dedupAux_nodup : ∀ (seen l : List String), (dedupAux seen l).Nodup := by
  intro seen l
  induction l generalizing seen with
  | nil => exact List.nodup_nil
  | cons y ys ih =>
    unfold dedupAux
    by_cases hy : y ∈ seen
    · rw [if_pos hy]; exact ih seen
    · rw [if_neg hy]
      refine List.nodup_cons.mpr ⟨?_, ih (y :: seen)⟩
      intro hmem
      exact (mem_dedupAux hmem).2 (List.mem_cons_self y seen)

theorem firstIdx_cons_self (y : String) (ys : List String) :
    firstIdx y (y :: ys) = 0 := by
  show (if y = y then 0 else firstIdx y ys + 1) = 0
  rw [if_pos rfl]

theorem firstIdx_cons_shift {x y : String} (h : x ≠ y) (ys : List String) :
    firstIdx x (y :: ys) = firstIdx x ys + 1 := by
  show (if y = x then 0 else firstIdx x ys + 1) = firstIdx x ys + 1
  rw [if_neg (fun he => h he.symm)]

theorem dedupAux_pairwise : ∀ (seen l : List String),
    (dedupAux seen l).Pairwise (fun a b => firstIdx a l < firstIdx b l) := by
  intro seen l
  induction l generalizing seen with
  | nil => exact List.Pairwise.nil
  | cons y ys ih =>
    unfold dedupAux
    by_cases hy : y ∈ seen
    · rw [if_pos hy]
      refine (ih seen).imp_of_mem ?_
      intro a b ha hb hr
      have hay : a ≠ y := fun he => (mem_dedupAux ha).2 (by rw [he]; exact hy)
      have hby : b ≠ y := fun he => (mem_dedupAux hb).2 (by rw [he]; exact hy)
      rw [firstIdx_cons_shift hay, firstIdx_cons_shift hby]
      omega
    · rw [if_neg hy]
      refine List.Pairwise.cons ?_ ?_
      · intro b hb
        have hby : b ≠ y := fun he =>
          (mem_dedupAux hb).2 (by rw [he]; exact List.mem_cons_self y seen)
        rw [firstIdx_cons_self, firstIdx_cons_shift hby]
        omega
      · refine (ih (y :: seen)).imp_of_mem ?_
        intro a b ha hb hr
        have hay : a ≠ y := fun he =>
          (mem_dedupAux ha).2 (by rw [he]; exact List.mem_cons_self y seen)
        have hby : b ≠ y := fun he =>
          (mem_dedupAux hb).2 (by rw [he]; exact List.mem_cons_self y seen)
        rw [firstIdx_cons_shift hay, firstIdx_cons_shift hby]
        omega

/-- C5: the sequence `extractUrls` returns holds no two equal entries,
contains exactly the entries of the validated sequence it deduplicates,
and lists them in strictly increasing order of their first occurrence in
that sequence (first-seen order). -/
theorem extractUrls_nodup_first_seen
    (parse : String → Option URLRec) (text : String) (config : UrlConfig) :
    (extractUrls parse text config).Nodup ∧
    (∀ x, x ∈ extractUrls parse text config ↔ x ∈ extractValidUrls parse text config) ∧
    (extractUrls parse text config).Pairwise
      (fun a b => firstIdx a (extractValidUrls parse text config) <
        firstIdx b (extractValidUrls parse text config)) := by
  refine ⟨dedupAux_nodup [] _, ?_, dedupAux_pairwise [] _⟩
  intro x
  constructor
  · intro h
    exact (mem_dedupAux h).1
  · intro h
    exact mem_dedupAux_of h (List.not_mem_nil x)

end ContentHarvester
